import Mathlib

/-!
Verification of the event-sourced URL shortener (src/src/main.rs).

The service keeps two pieces of state (struct `UrlShortenerService`):
  * `url_events : Vec<ShortLink>` — the ordered log of link-creation events;
  * `redirect_events_by_slug : HashMap<String, Vec<Slug>>` — redirect events
    bucketed by slug.

External collaborators (the `url` crate's parser and the `DefaultHasher`-based
slug generator inside `handle_create_short_link`) are modelled as an injectable
capability record, as the specification treats them: both are pure functions of
the input string (`DefaultHasher::new()` is deterministic, so
`generate_slug_from_url` is a pure function of the URL).

The slug-generation loop in the `None` branch of `handle_create_short_link`
recomputes `generate_slug_from_url(&url.0)` — the same value — on every
iteration, so it terminates (after one iteration) exactly when that slug is
fresh, and otherwise never terminates.  The embedding therefore returns
`Option`, with `none` standing for divergence of the loop.
-/

/-- Mirror of `enum ShortenerError` (src/src/main.rs lines 56-67). -/
inductive ShortenerError
  | invalidUrl
  | slugAlreadyInUse
  | slugNotFound
deriving DecidableEq

deriving instance DecidableEq for Except

/-- Mirror of `struct Slug(pub String)` (line 72); derived `PartialEq` is
field-wise, i.e. string equality. -/
structure Slug where
  val : String
deriving DecidableEq

/-- Mirror of `struct Url(pub String)` (line 76). -/
structure Url where
  val : String
deriving DecidableEq

/-- Mirror of `struct ShortLink` (lines 80-87). -/
structure ShortLink where
  slug : Slug
  url : Url
deriving DecidableEq

/-- Mirror of `struct Stats` (lines 91-97); `redirects: u64` is modelled as
`Nat` (it is a count of events, far below `2^64` for any run we consider, and
the code derives it from a `Vec` length which is `usize`). -/
structure Stats where
  link : ShortLink
  redirects : Nat
deriving DecidableEq

/-- The two external pure capabilities used by `handle_create_short_link`:
`url::Url::parse(&url.0).is_err()` (here `url_parse_ok u = true` means parsing
succeeds), and the inner function `generate_slug_from_url` (line 185), which
hashes the URL string with `DefaultHasher` and keeps the first `SLUG_LEN`
hex characters — a deterministic function of the URL string. -/
structure ExternalCaps where
  url_parse_ok : String → Bool
  generate_slug_from_url : String → String

/-- Mirror of `struct UrlShortenerService` (lines 142-147).  The `HashMap` is
modelled as an association list keyed by the slug string: the code only ever
accesses the map by key (`get`, `get_mut`, `insert`) and never iterates over
it, so the hash-table layout is irrelevant and an association list (with a new
key appended at the end) represents it faithfully. -/
structure UrlShortenerService where
  url_events : List ShortLink
  redirect_events_by_slug : List (String × List Slug)
deriving DecidableEq

/-- Lookup by key, the model of `HashMap::get`. -/
def bucketLookup (m : List (String × List Slug)) (k : String) :
    Option (List Slug) :=
  (m.find? (fun p => p.1 = k)).map Prod.snd

/-- The model of lines 225-229 of `handle_redirect`: `push` the slug onto its
bucket when the key is present (`get_mut`), otherwise `insert` the key with
the one-element vector `vec![slug]`. -/
def bucketPush (m : List (String × List Slug)) (slug : Slug) :
    List (String × List Slug) :=
  if (m.find? (fun p => p.1 = slug.val)).isSome then
    m.map (fun p => if p.1 = slug.val then (p.1, p.2 ++ [slug]) else p)
  else
    m ++ [(slug.val, [slug])]

/-- Mirror of `UrlShortenerService::new` (lines 151-156). -/
def UrlShortenerService.new : UrlShortenerService :=
  ⟨[], []⟩

/-- Mirror of `handle_create_short_link` (lines 165-216).  The `log` calls
only print; they are omitted.  Returns `none` when the slug-generation loop
(lines 203-208) diverges: the loop breaks on its first iteration iff the
deterministically generated slug is not among `existing_slugs`, and otherwise
re-generates the same slug forever. -/
def handle_create_short_link (c : ExternalCaps) (s : UrlShortenerService)
    (url : Url) (slug : Option Slug) :
    Option (UrlShortenerService × Except ShortenerError ShortLink) :=
  if c.url_parse_ok url.val = false then
    some (s, .error .invalidUrl)
  else if s.url_events.any (fun event => event.url = url) then
    some (s, .error .slugAlreadyInUse)
  else
    let existing_slugs := s.url_events.map (fun event => event.slug.val)
    let short_link? : Option (Except ShortenerError ShortLink) :=
      match slug with
      | some slug =>
          if existing_slugs.contains slug.val then
            some (.error .slugAlreadyInUse)
          else
            some (.ok ⟨slug, url⟩)
      | none =>
          let slug_str := c.generate_slug_from_url url.val
          if existing_slugs.contains slug_str then
            none
          else
            some (.ok ⟨⟨slug_str⟩, url⟩)
    match short_link? with
    | none => none
    | some (.error e) => some (s, .error e)
    | some (.ok short_link) =>
        some ({ s with url_events := s.url_events ++ [short_link] },
              .ok short_link)

/-- Mirror of `handle_redirect` (lines 218-241): find the creation event for
the slug; on success append the slug to its redirect bucket (`push` when the
key exists, `insert` of `vec![slug]` otherwise — both are an append in the
total-function model) and return the bound `ShortLink`; otherwise fail with
`SlugNotFound` and leave the state untouched. -/
def handle_redirect (s : UrlShortenerService) (slug : Slug) :
    UrlShortenerService × Except ShortenerError ShortLink :=
  match s.url_events.find? (fun url_event => url_event.slug = slug) with
  | some url_event =>
      ({ s with redirect_events_by_slug :=
          bucketPush s.redirect_events_by_slug slug },
       .ok ⟨slug, url_event.url⟩)
  | none => (s, .error .slugNotFound)

/-- Mirror of `get_stats` (lines 245-260): find the creation event for the
slug; on success count the entries of its redirect bucket that carry this slug
(`filter` as in line 250) and return the `Stats`; `&self` only — no state is
returned because the code cannot modify it. -/
def get_stats (s : UrlShortenerService) (slug : Slug) :
    Except ShortenerError Stats :=
  match s.url_events.find? (fun url_event => url_event.slug = slug) with
  | some url_event =>
      let redirects :=
        ((bucketLookup s.redirect_events_by_slug slug.val).map
          (fun stat => (stat.filter (fun x => x.val = slug.val)).length)).getD 0
      .ok ⟨url_event, redirects⟩
  | none => .error .slugNotFound

/-- Domain events of the specification's flat ordered log: `LinkCreated` and
`RedirectOccurred` (spec section 3). -/
inductive Event
  | linkCreated (slug : String) (url : String)
  | redirectOccurred (slug : String)
deriving DecidableEq

/-- Modelled from the spec: the fold/replay logic (spec sections 4.1 and 8's
round-trip property).  Applying a `LinkCreated` event appends the link to
`url_events` exactly as the success path of `handle_create_short_link` does;
applying a `RedirectOccurred` event appends the slug to its bucket exactly as
the success path of `handle_redirect` does. -/
def applyEvent (s : UrlShortenerService) : Event → UrlShortenerService
  | .linkCreated slug url =>
      { s with url_events := s.url_events ++ [⟨⟨slug⟩, ⟨url⟩⟩] }
  | .redirectOccurred slug =>
      { s with redirect_events_by_slug :=
          bucketPush s.redirect_events_by_slug ⟨slug⟩ }

/-- The three operations a caller can invoke on the service. -/
inductive Op
  | create (url : String) (slug : Option String)
  | redirect (slug : String)
  | getStats (slug : String)
deriving DecidableEq

/-- What one operation returned to the caller. -/
inductive OpResult
  | created (link : ShortLink)
  | redirected (link : ShortLink)
  | statsResult (st : Stats)
  | failed (e : ShortenerError)
deriving DecidableEq

/-- One service call: the new state, the caller-visible result, and the domain
events this call appended to the conceptual flat log (`LinkCreated` for a
successful create, `RedirectOccurred` for a successful redirect, nothing on
failure or for the read-only query).  `none` propagates divergence of the
slug-generation loop. -/
def stepOp (c : ExternalCaps) (s : UrlShortenerService) :
    Op → Option (UrlShortenerService × OpResult × List Event)
  | .create url oslug =>
      match handle_create_short_link c s ⟨url⟩ (oslug.map (fun t => ⟨t⟩)) with
      | none => none
      | some (s', .ok link) =>
          some (s', .created link, [.linkCreated link.slug.val link.url.val])
      | some (s', .error e) => some (s', .failed e, [])
  | .redirect slug =>
      match handle_redirect s ⟨slug⟩ with
      | (s', .ok link) => some (s', .redirected link, [.redirectOccurred slug])
      | (s', .error e) => some (s', .failed e, [])
  | .getStats slug =>
      match get_stats s ⟨slug⟩ with
      | .ok st => some (s, .statsResult st, [])
      | .error e => some (s, .failed e, [])

/-- Run a sequence of operations, collecting the per-operation results and the
flat event log in append order. -/
def runOps (c : ExternalCaps) (s : UrlShortenerService) :
    List Op → Option (UrlShortenerService × List OpResult × List Event)
  | [] => some (s, [], [])
  | op :: ops =>
      match stepOp c s op with
      | none => none
      | some (s', r, evs) =>
          match runOps c s' ops with
          | none => none
          | some (s'', rs, evs') => some (s'', r :: rs, evs ++ evs')

/-- A state is reachable when some sequence of operations, run from the fresh
service, produces it. -/
def Reachable (c : ExternalCaps) (s : UrlShortenerService) : Prop :=
  ∃ ops rs evs, runOps c UrlShortenerService.new ops = some (s, rs, evs)

/-- Number of `RedirectOccurred` events for a given slug in a log. -/
def countRedirect (evs : List Event) (slug : String) : Nat :=
  (evs.filter (fun e => e = .redirectOccurred slug)).length

/-- A concrete capability instance used to evaluate the model on concrete
inputs: URL strings are accepted exactly when they start with a scheme-like
prefix that the real `url` crate also accepts, and the slug generator tags the
length of the URL (any deterministic function works for these evaluations). -/
def demoCaps : ExternalCaps :=
  ⟨fun u => u.data.take 7 = "http://".data,
   fun u => String.mk ('h' :: List.replicate u.data.length 'x')⟩

/-- The entries currently recorded under a key (`[]` when the key is absent):
the projection of the redirect index that `get_stats` aggregates. -/
def bucketEntries (m : List (String × List Slug)) (k : String) : List Slug :=
  (bucketLookup m k).getD []

/-- The service invariant every reachable state satisfies: creation events
carry pairwise-distinct slugs, pairwise-distinct URLs, and only URLs the
parser accepted. -/
def ServiceInv (c : ExternalCaps) (s : UrlShortenerService) : Prop :=
  (s.url_events.map (fun l => l.slug.val)).Nodup
    ∧ (s.url_events.map (fun l => l.url.val)).Nodup
    ∧ ∀ l ∈ s.url_events, c.url_parse_ok l.url.val = true

/-- Recognizes the result of a successful redirect of the given slug. -/
def isRedirectedOf (S : String) : OpResult → Bool
  | .redirected link => link.slug.val = S
  | _ => false

theorem eta_short_link (l : ShortLink) : ShortLink.mk ⟨l.slug.val⟩ ⟨l.url.val⟩ = l := by
  cases l with
  | mk slug url => cases slug; cases url; rfl

theorem bucketLookup_cons (p : String × List Slug) (m : List (String × List Slug))
    (k : String) :
    bucketLookup (p :: m) k = if p.1 = k then some p.2 else bucketLookup m k := by
  by_cases h : p.1 = k <;> simp [bucketLookup, List.find?_cons, h]

theorem bucketLookup_map_append (m : List (String × List Slug)) (t : Slug) (k : String) :
    bucketLookup (m.map (fun p => if p.1 = t.val then (p.1, p.2 ++ [t]) else p)) k
      = (bucketLookup m k).map (fun b => if k = t.val then b ++ [t] else b) := by
  induction m with
  | nil => rfl
  | cons p m ih =>
      have h1 : (if p.1 = t.val then (p.1, p.2 ++ [t]) else p).1 = p.1 := by
        split <;> rfl
      have h2 : (if p.1 = t.val then (p.1, p.2 ++ [t]) else p).2
          = if p.1 = t.val then p.2 ++ [t] else p.2 := by
        split <;> rfl
      rw [List.map_cons, bucketLookup_cons, bucketLookup_cons, h1, h2]
      by_cases hk : p.1 = k
      · subst hk
        simp [ih]
      · simp [hk, ih]

theorem isSome_bucketLookup (m : List (String × List Slug)) (k : String) :
    (bucketLookup m k).isSome = (m.find? (fun p => p.1 = k)).isSome := by
  simp [bucketLookup]

theorem bucketEntries_push (m : List (String × List Slug)) (t : Slug) (k : String) :
    bucketEntries (bucketPush m t) k
      = if k = t.val then bucketEntries m k ++ [t] else bucketEntries m k := by
  unfold bucketPush
  by_cases hf : (m.find? (fun p => p.1 = t.val)).isSome
  · rw [if_pos hf]
    simp only [bucketEntries, bucketLookup_map_append]
    by_cases hk : k = t.val
    · have hs : (bucketLookup m t.val).isSome := by rw [isSome_bucketLookup]; exact hf
      obtain ⟨b, hb⟩ := Option.isSome_iff_exists.mp hs
      rw [hk, hb]
      simp
    · simp only [hk, if_false]
      cases bucketLookup m k <;> simp
  · have hnone : m.find? (fun p => p.1 = t.val) = none :=
      Option.not_isSome_iff_eq_none.mp hf
    rw [if_neg hf]
    simp only [bucketEntries, bucketLookup, List.find?_append]
    by_cases hk : k = t.val
    · subst hk
      simp [List.find?_cons, hnone]
    · have ht : ¬ (t.val = k) := fun h => hk h.symm
      simp [List.find?_cons, ht, hk]

theorem countRedirect_nil (k : String) : countRedirect [] k = 0 := rfl

theorem countRedirect_cons (e : Event) (evs : List Event) (k : String) :
    countRedirect (e :: evs) k
      = (if e = .redirectOccurred k then 1 else 0) + countRedirect evs k := by
  by_cases h : e = Event.redirectOccurred k <;>
    simp [countRedirect, List.filter_cons, h, Nat.add_comm]

theorem foldl_applyEvent_buckets (evs : List Event) (s0 : UrlShortenerService)
    (k : String) :
    bucketEntries (evs.foldl applyEvent s0).redirect_events_by_slug k
      = bucketEntries s0.redirect_events_by_slug k
          ++ List.replicate (countRedirect evs k) ⟨k⟩ := by
  induction evs generalizing s0 with
  | nil => simp [countRedirect]
  | cons e evs ih =>
      rw [List.foldl_cons, ih, countRedirect_cons]
      cases e with
      | linkCreated slug url =>
          simp [applyEvent]
      | redirectOccurred j =>
          by_cases hj : k = j
          · subst hj
            simp [applyEvent, bucketEntries_push, List.replicate_succ, Nat.add_comm]
          · have hne : Event.redirectOccurred j ≠ Event.redirectOccurred k := by
              intro h
              injection h with h'
              exact hj h'.symm
            simp [applyEvent, bucketEntries_push, hj, hne]

theorem foldl_applyEvent_append (evs evs' : List Event) (s0 : UrlShortenerService) :
    (evs ++ evs').foldl applyEvent s0
      = evs'.foldl applyEvent (evs.foldl applyEvent s0) :=
  List.foldl_append applyEvent s0 evs evs'

theorem create_invalid (c : ExternalCaps) (s : UrlShortenerService) (url : Url)
    (oslug : Option Slug) (h : c.url_parse_ok url.val = false) :
    handle_create_short_link c s url oslug = some (s, .error .invalidUrl) := by
  simp [handle_create_short_link, h]

theorem create_dup_url (c : ExternalCaps) (s : UrlShortenerService) (url : Url)
    (oslug : Option Slug) (h1 : c.url_parse_ok url.val = true)
    (h2 : s.url_events.any (fun e => e.url = url) = true) :
    handle_create_short_link c s url oslug = some (s, .error .slugAlreadyInUse) := by
  simp [handle_create_short_link, h1, h2]

theorem create_dup_slug (c : ExternalCaps) (s : UrlShortenerService) (url : Url)
    (t : Slug) (h1 : c.url_parse_ok url.val = true)
    (h2 : s.url_events.any (fun e => e.url = url) = false)
    (h3 : ∃ l ∈ s.url_events, l.slug.val = t.val) :
    handle_create_short_link c s url (some t)
      = some (s, .error .slugAlreadyInUse) := by
  simp [handle_create_short_link, h1, h2, h3]

theorem create_some_ok (c : ExternalCaps) (s : UrlShortenerService) (url : Url)
    (t : Slug) (h1 : c.url_parse_ok url.val = true)
    (h2 : s.url_events.any (fun e => e.url = url) = false)
    (h3 : ¬ ∃ l ∈ s.url_events, l.slug.val = t.val) :
    handle_create_short_link c s url (some t)
      = some ({ s with url_events := s.url_events ++ [⟨t, url⟩] }, .ok ⟨t, url⟩) := by
  simp [handle_create_short_link, h1, h2, h3]

theorem create_none_diverges (c : ExternalCaps) (s : UrlShortenerService) (url : Url)
    (h1 : c.url_parse_ok url.val = true)
    (h2 : s.url_events.any (fun e => e.url = url) = false)
    (h3 : ∃ l ∈ s.url_events, l.slug.val = c.generate_slug_from_url url.val) :
    handle_create_short_link c s url none = none := by
  simp [handle_create_short_link, h1, h2, h3]

theorem create_none_ok (c : ExternalCaps) (s : UrlShortenerService) (url : Url)
    (h1 : c.url_parse_ok url.val = true)
    (h2 : s.url_events.any (fun e => e.url = url) = false)
    (h3 : ¬ ∃ l ∈ s.url_events, l.slug.val = c.generate_slug_from_url url.val) :
    handle_create_short_link c s url none
      = some ({ s with url_events :=
                  s.url_events ++ [⟨⟨c.generate_slug_from_url url.val⟩, url⟩] },
              .ok ⟨⟨c.generate_slug_from_url url.val⟩, url⟩) := by
  simp [handle_create_short_link, h1, h2, h3]

theorem create_ok_inv (c : ExternalCaps) (s : UrlShortenerService) (url : Url)
    (oslug : Option Slug) (s' : UrlShortenerService) (link : ShortLink)
    (h : handle_create_short_link c s url oslug = some (s', .ok link)) :
    s' = { s with url_events := s.url_events ++ [link] }
      ∧ c.url_parse_ok url.val = true
      ∧ s.url_events.any (fun e => e.url = url) = false
      ∧ link.url = url
      ∧ (∀ l ∈ s.url_events, l.slug.val ≠ link.slug.val)
      ∧ (∀ t, oslug = some t → link.slug = t)
      ∧ (oslug = none → link.slug.val = c.generate_slug_from_url url.val) := by
  by_cases h1 : c.url_parse_ok url.val = true
  · by_cases h2 : s.url_events.any (fun e => e.url = url) = true
    · rw [create_dup_url c s url oslug h1 h2] at h
      simp at h
    · have h2' : s.url_events.any (fun e => e.url = url) = false := by simpa using h2
      cases oslug with
      | some t =>
          by_cases h3 : ∃ l ∈ s.url_events, l.slug.val = t.val
          · rw [create_dup_slug c s url t h1 h2' h3] at h
            simp at h
          · rw [create_some_ok c s url t h1 h2' h3] at h
            simp only [Option.some.injEq, Prod.mk.injEq, Except.ok.injEq] at h
            obtain ⟨hs, hl⟩ := h
            subst hl
            refine ⟨hs.symm, h1, h2', rfl, ?_, ?_, ?_⟩
            · intro l hl he
              exact h3 ⟨l, hl, he⟩
            · intro t' ht'
              cases ht'
              rfl
            · intro hnone
              cases hnone
      | none =>
          by_cases h3 : ∃ l ∈ s.url_events, l.slug.val = c.generate_slug_from_url url.val
          · rw [create_none_diverges c s url h1 h2' h3] at h
            cases h
          · rw [create_none_ok c s url h1 h2' h3] at h
            simp only [Option.some.injEq, Prod.mk.injEq, Except.ok.injEq] at h
            obtain ⟨hs, hl⟩ := h
            subst hl
            refine ⟨hs.symm, h1, h2', rfl, ?_, ?_, fun _ => rfl⟩
            · intro l hl he
              exact h3 ⟨l, hl, he⟩
            · intro t' ht'
              cases ht'
  · have h1' : c.url_parse_ok url.val = false := by simpa using h1
    rw [create_invalid c s url oslug h1'] at h
    simp at h

theorem create_error_inv (c : ExternalCaps) (s : UrlShortenerService) (url : Url)
    (oslug : Option Slug) (s' : UrlShortenerService) (e : ShortenerError)
    (h : handle_create_short_link c s url oslug = some (s', .error e)) :
    s' = s := by
  by_cases h1 : c.url_parse_ok url.val = true
  · by_cases h2 : s.url_events.any (fun e => e.url = url) = true
    · rw [create_dup_url c s url oslug h1 h2] at h
      simp only [Option.some.injEq, Prod.mk.injEq] at h
      exact h.1.symm
    · have h2' : s.url_events.any (fun e => e.url = url) = false := by simpa using h2
      cases oslug with
      | some t =>
          by_cases h3 : ∃ l ∈ s.url_events, l.slug.val = t.val
          · rw [create_dup_slug c s url t h1 h2' h3] at h
            simp only [Option.some.injEq, Prod.mk.injEq] at h
            exact h.1.symm
          · rw [create_some_ok c s url t h1 h2' h3] at h
            simp at h
      | none =>
          by_cases h3 : ∃ l ∈ s.url_events, l.slug.val = c.generate_slug_from_url url.val
          · rw [create_none_diverges c s url h1 h2' h3] at h
            cases h
          · rw [create_none_ok c s url h1 h2' h3] at h
            simp at h
  · have h1' : c.url_parse_ok url.val = false := by simpa using h1
    rw [create_invalid c s url oslug h1'] at h
    simp only [Option.some.injEq, Prod.mk.injEq] at h
    exact h.1.symm

theorem redirect_found (s : UrlShortenerService) (slug : Slug) (url_event : ShortLink)
    (h : s.url_events.find? (fun e => e.slug = slug) = some url_event) :
    handle_redirect s slug
      = ({ s with redirect_events_by_slug :=
            bucketPush s.redirect_events_by_slug slug },
         .ok ⟨slug, url_event.url⟩) := by
  simp [handle_redirect, h]

theorem redirect_not_found (s : UrlShortenerService) (slug : Slug)
    (h : s.url_events.find? (fun e => e.slug = slug) = none) :
    handle_redirect s slug = (s, .error .slugNotFound) := by
  simp [handle_redirect, h]

theorem stepOp_replay (c : ExternalCaps) (s : UrlShortenerService) (op : Op)
    (s' : UrlShortenerService) (r : OpResult) (evs : List Event)
    (h : stepOp c s op = some (s', r, evs)) : s' = evs.foldl applyEvent s := by
  cases op with
  | create url oslug =>
      simp only [stepOp] at h
      cases hc : handle_create_short_link c s ⟨url⟩ (oslug.map fun t => ⟨t⟩) with
      | none =>
          rw [hc] at h
          exact Option.noConfusion h
      | some pr =>
          obtain ⟨s1, res⟩ := pr
          cases res with
          | ok link =>
              simp only [hc, Option.some.injEq, Prod.mk.injEq] at h
              obtain ⟨hs1, hr, hevs⟩ := h
              obtain ⟨hstate, -, -, -, -, -, -⟩ :=
                create_ok_inv c s ⟨url⟩ (oslug.map fun t => ⟨t⟩) s1 link hc
              subst hs1
              rw [← hevs]
              simp [applyEvent, hstate, eta_short_link]
          | error e =>
              simp only [hc, Option.some.injEq, Prod.mk.injEq] at h
              obtain ⟨hs1, hr, hevs⟩ := h
              have := create_error_inv c s ⟨url⟩ (oslug.map fun t => ⟨t⟩) s1 e hc
              subst hs1
              rw [← hevs]
              simpa using this
  | redirect slug =>
      simp only [stepOp] at h
      cases hf : s.url_events.find? (fun e => e.slug = (⟨slug⟩ : Slug)) with
      | some url_event =>
          rw [redirect_found s ⟨slug⟩ url_event hf] at h
          simp only [Option.some.injEq, Prod.mk.injEq] at h
          obtain ⟨hs1, hr, hevs⟩ := h
          rw [← hevs, ← hs1]
          simp [applyEvent]
      | none =>
          rw [redirect_not_found s ⟨slug⟩ hf] at h
          simp only [Option.some.injEq, Prod.mk.injEq] at h
          obtain ⟨hs1, hr, hevs⟩ := h
          rw [← hevs, ← hs1]
          simp
  | getStats slug =>
      simp only [stepOp] at h
      cases hg : get_stats s ⟨slug⟩ with
      | ok st =>
          simp only [hg, Option.some.injEq, Prod.mk.injEq] at h
          obtain ⟨hs1, hr, hevs⟩ := h
          rw [← hevs, ← hs1]
          simp
      | error e =>
          simp only [hg, Option.some.injEq, Prod.mk.injEq] at h
          obtain ⟨hs1, hr, hevs⟩ := h
          rw [← hevs, ← hs1]
          simp

theorem runOps_replay (c : ExternalCaps) (ops : List Op) :
    ∀ s0 s rs evs, runOps c s0 ops = some (s, rs, evs) →
      s = evs.foldl applyEvent s0 := by
  induction ops with
  | nil =>
      intro s0 s rs evs h
      simp only [runOps, Option.some.injEq, Prod.mk.injEq] at h
      obtain ⟨h1, h2, h3⟩ := h
      rw [← h1, ← h3]
      rfl
  | cons op ops ih =>
      intro s0 s rs evs h
      simp only [runOps] at h
      cases hs : stepOp c s0 op with
      | none =>
          simp only [hs] at h
          exact Option.noConfusion h
      | some pr =>
          obtain ⟨s1, r, evs1⟩ := pr
          cases hr : runOps c s1 ops with
          | none =>
              simp only [hs, hr] at h
              exact Option.noConfusion h
          | some pr2 =>
              obtain ⟨s2, rs2, evs2⟩ := pr2
              simp only [hs, hr, Option.some.injEq, Prod.mk.injEq] at h
              obtain ⟨h1, h2, h3⟩ := h
              rw [← h1, ← h3, foldl_applyEvent_append,
                ← stepOp_replay c s0 op s1 r evs1 hs]
              exact ih s1 s2 rs2 evs2 hr

theorem foldl_applyEvent_url_events (evs : List Event) (s0 : UrlShortenerService) :
    ∃ t, (evs.foldl applyEvent s0).url_events = s0.url_events ++ t := by
  induction evs generalizing s0 with
  | nil => exact ⟨[], by simp⟩
  | cons e evs ih =>
      obtain ⟨t, ht⟩ := ih (applyEvent s0 e)
      cases e with
      | linkCreated slug url =>
          refine ⟨⟨⟨slug⟩, ⟨url⟩⟩ :: t, ?_⟩
          rw [List.foldl_cons, ht]
          simp [applyEvent]
      | redirectOccurred j =>
          refine ⟨t, ?_⟩
          rw [List.foldl_cons, ht]
          rfl

theorem runOps_url_events_extend (c : ExternalCaps) (ops : List Op)
    (s0 s : UrlShortenerService) (rs : List OpResult) (evs : List Event)
    (h : runOps c s0 ops = some (s, rs, evs)) :
    ∃ t, s.url_events = s0.url_events ++ t := by
  rw [runOps_replay c ops s0 s rs evs h]
  exact foldl_applyEvent_url_events evs s0

theorem stepOp_created_inv (c : ExternalCaps) (s : UrlShortenerService) (op : Op)
    (s' : UrlShortenerService) (link : ShortLink) (evs : List Event)
    (h : stepOp c s op = some (s', .created link, evs)) :
    link ∈ s'.url_events := by
  cases op with
  | create url oslug =>
      simp only [stepOp] at h
      cases hc : handle_create_short_link c s ⟨url⟩ (oslug.map fun t => ⟨t⟩) with
      | none =>
          rw [hc] at h
          exact Option.noConfusion h
      | some pr =>
          obtain ⟨s1, res⟩ := pr
          cases res with
          | ok link' =>
              simp only [hc, Option.some.injEq, Prod.mk.injEq,
                OpResult.created.injEq] at h
              obtain ⟨hs1, hl, -⟩ := h
              obtain ⟨hstate, -, -, -, -, -, -⟩ :=
                create_ok_inv c s ⟨url⟩ (oslug.map fun t => ⟨t⟩) s1 link' hc
              rw [← hs1, hstate, ← hl]
              simp
          | error e => simp only [hc] at h; simp at h
  | redirect slug =>
      simp only [stepOp] at h
      cases hf : s.url_events.find? (fun e => e.slug = (⟨slug⟩ : Slug)) with
      | some url_event =>
          rw [redirect_found s ⟨slug⟩ url_event hf] at h
          simp at h
      | none =>
          rw [redirect_not_found s ⟨slug⟩ hf] at h
          simp at h
  | getStats slug =>
      simp only [stepOp] at h
      cases hg : get_stats s ⟨slug⟩ with
      | ok st => simp only [hg] at h; simp at h
      | error e => simp only [hg] at h; simp at h

theorem created_mem_url_events (c : ExternalCaps) (ops : List Op) :
    ∀ s0 s rs evs, runOps c s0 ops = some (s, rs, evs) →
      ∀ link, OpResult.created link ∈ rs → link ∈ s.url_events := by
  induction ops with
  | nil =>
      intro s0 s rs evs h link hmem
      simp only [runOps, Option.some.injEq, Prod.mk.injEq] at h
      obtain ⟨-, h2, -⟩ := h
      rw [← h2] at hmem
      cases hmem
  | cons op ops ih =>
      intro s0 s rs evs h link hmem
      simp only [runOps] at h
      cases hs : stepOp c s0 op with
      | none =>
          simp only [hs] at h
          exact Option.noConfusion h
      | some pr =>
          obtain ⟨s1, r, evs1⟩ := pr
          cases hr : runOps c s1 ops with
          | none =>
              simp only [hs, hr] at h
              exact Option.noConfusion h
          | some pr2 =>
              obtain ⟨s2, rs2, evs2⟩ := pr2
              simp only [hs, hr, Option.some.injEq, Prod.mk.injEq] at h
              obtain ⟨h1, h2, h3⟩ := h
              rw [← h2] at hmem
              rw [← h1]
              rcases List.mem_cons.mp hmem with hhead | htail
              · have hmem1 : link ∈ s1.url_events := by
                  rw [← hhead] at hs
                  exact stepOp_created_inv c s0 op s1 link evs1 hs
                obtain ⟨t, ht⟩ := runOps_url_events_extend c ops s1 s2 rs2 evs2 hr
                rw [ht]
                exact List.mem_append_left t hmem1
              · exact ih s1 s2 rs2 evs2 hr link htail

theorem urlVal_inj {a b : Url} (h : a.val = b.val) : a = b := by
  cases a
  cases b
  cases h
  rfl

theorem slugVal_inj {a b : Slug} (h : a.val = b.val) : a = b := by
  cases a
  cases b
  cases h
  rfl

theorem create_ok_preserves_inv (c : ExternalCaps) (s : UrlShortenerService)
    (url : Url) (oslug : Option Slug) (s' : UrlShortenerService) (link : ShortLink)
    (h : handle_create_short_link c s url oslug = some (s', .ok link))
    (hinv : ServiceInv c s) : ServiceInv c s' := by
  obtain ⟨hstate, hparse, hany, hurl, hslug, -, -⟩ :=
    create_ok_inv c s url oslug s' link h
  obtain ⟨hn1, hn2, hv⟩ := hinv
  rw [hstate]
  refine ⟨?_, ?_, ?_⟩
  · simp only [List.map_append, List.map_cons, List.map_nil]
    rw [List.nodup_append]
    refine ⟨hn1, List.nodup_singleton _, ?_⟩
    intro a ha hb
    simp only [List.mem_singleton] at hb
    obtain ⟨l, hl, hla⟩ := List.mem_map.mp ha
    exact hslug l hl (hla.trans hb)
  · simp only [List.map_append, List.map_cons, List.map_nil]
    rw [List.nodup_append]
    refine ⟨hn2, List.nodup_singleton _, ?_⟩
    intro a ha hb
    simp only [List.mem_singleton] at hb
    obtain ⟨l, hl, hla⟩ := List.mem_map.mp ha
    have : l.url = link.url := urlVal_inj (hla.trans hb)
    have hex : s.url_events.any (fun e => e.url = url) = true := by
      rw [List.any_eq_true]
      exact ⟨l, hl, by simp [this, hurl]⟩
    rw [hany] at hex
    cases hex
  · intro l hl
    rcases List.mem_append.mp hl with hold | hnew
    · exact hv l hold
    · simp only [List.mem_singleton] at hnew
      rw [hnew, hurl]
      exact hparse

theorem stepOp_preserves_inv (c : ExternalCaps) (s : UrlShortenerService) (op : Op)
    (s' : UrlShortenerService) (r : OpResult) (evs : List Event)
    (h : stepOp c s op = some (s', r, evs)) (hinv : ServiceInv c s) :
    ServiceInv c s' := by
  cases op with
  | create url oslug =>
      simp only [stepOp] at h
      cases hc : handle_create_short_link c s ⟨url⟩ (oslug.map fun t => ⟨t⟩) with
      | none =>
          rw [hc] at h
          exact Option.noConfusion h
      | some pr =>
          obtain ⟨s1, res⟩ := pr
          cases res with
          | ok link =>
              simp only [hc, Option.some.injEq, Prod.mk.injEq] at h
              obtain ⟨hs1, -, -⟩ := h
              rw [← hs1]
              exact create_ok_preserves_inv c s ⟨url⟩ (oslug.map fun t => ⟨t⟩)
                s1 link hc hinv
          | error e =>
              simp only [hc, Option.some.injEq, Prod.mk.injEq] at h
              obtain ⟨hs1, -, -⟩ := h
              rw [← hs1, create_error_inv c s ⟨url⟩ (oslug.map fun t => ⟨t⟩) s1 e hc]
              exact hinv
  | redirect slug =>
      simp only [stepOp] at h
      cases hf : s.url_events.find? (fun e => e.slug = (⟨slug⟩ : Slug)) with
      | some url_event =>
          rw [redirect_found s ⟨slug⟩ url_event hf] at h
          simp only [Option.some.injEq, Prod.mk.injEq] at h
          obtain ⟨hs1, -, -⟩ := h
          rw [← hs1]
          exact hinv
      | none =>
          rw [redirect_not_found s ⟨slug⟩ hf] at h
          simp only [Option.some.injEq, Prod.mk.injEq] at h
          obtain ⟨hs1, -, -⟩ := h
          rw [← hs1]
          exact hinv
  | getStats slug =>
      simp only [stepOp] at h
      cases hg : get_stats s ⟨slug⟩ with
      | ok st =>
          simp only [hg, Option.some.injEq, Prod.mk.injEq] at h
          obtain ⟨hs1, -, -⟩ := h
          rw [← hs1]
          exact hinv
      | error e =>
          simp only [hg, Option.some.injEq, Prod.mk.injEq] at h
          obtain ⟨hs1, -, -⟩ := h
          rw [← hs1]
          exact hinv

theorem runOps_preserves_inv (c : ExternalCaps) (ops : List Op) :
    ∀ s0 s rs evs, runOps c s0 ops = some (s, rs, evs) →
      ServiceInv c s0 → ServiceInv c s := by
  induction ops with
  | nil =>
      intro s0 s rs evs h hinv
      simp only [runOps, Option.some.injEq, Prod.mk.injEq] at h
      rw [← h.1]
      exact hinv
  | cons op ops ih =>
      intro s0 s rs evs h hinv
      simp only [runOps] at h
      cases hs : stepOp c s0 op with
      | none =>
          simp only [hs] at h
          exact Option.noConfusion h
      | some pr =>
          obtain ⟨s1, r, evs1⟩ := pr
          cases hr : runOps c s1 ops with
          | none =>
              simp only [hs, hr] at h
              exact Option.noConfusion h
          | some pr2 =>
              obtain ⟨s2, rs2, evs2⟩ := pr2
              simp only [hs, hr, Option.some.injEq, Prod.mk.injEq] at h
              rw [← h.1]
              exact ih s1 s2 rs2 evs2 hr
                (stepOp_preserves_inv c s0 op s1 r evs1 hs hinv)

theorem reachable_inv (c : ExternalCaps) (s : UrlShortenerService)
    (h : Reachable c s) : ServiceInv c s := by
  obtain ⟨ops, rs, evs, hrun⟩ := h
  refine runOps_preserves_inv c ops UrlShortenerService.new s rs evs hrun ?_
  refine ⟨List.nodup_nil, List.nodup_nil, ?_⟩
  intro l hl
  cases hl

theorem find?_slug_of_mem (s : UrlShortenerService) (S : String)
    (h : ∃ l ∈ s.url_events, l.slug.val = S) :
    ∃ l', s.url_events.find? (fun e => e.slug = (⟨S⟩ : Slug)) = some l'
      ∧ l'.slug = (⟨S⟩ : Slug) := by
  obtain ⟨l, hl, hval⟩ := h
  have hsome : (s.url_events.find? (fun e => e.slug = (⟨S⟩ : Slug))).isSome := by
    rw [List.find?_isSome]
    exact ⟨l, hl, by simp [slugVal_inj hval]⟩
  obtain ⟨l', hl'⟩ := Option.isSome_iff_exists.mp hsome
  refine ⟨l', hl', ?_⟩
  have := List.find?_some hl'
  simpa using this

theorem getD_length_filter (m : List (String × List Slug)) (k : String) :
    ((bucketLookup m k).map
        (fun stat => (stat.filter (fun x => x.val = k)).length)).getD 0
      = ((bucketEntries m k).filter (fun x => x.val = k)).length := by
  unfold bucketEntries
  cases bucketLookup m k <;> simp

theorem get_stats_found (s : UrlShortenerService) (S : String) (l' : ShortLink)
    (hf : s.url_events.find? (fun e => e.slug = (⟨S⟩ : Slug)) = some l') :
    get_stats s ⟨S⟩
      = .ok ⟨l', ((bucketEntries s.redirect_events_by_slug S).filter
                   (fun x => x.val = S)).length⟩ := by
  simp [get_stats, hf, getD_length_filter]

theorem get_stats_not_found (s : UrlShortenerService) (S : String)
    (hf : s.url_events.find? (fun e => e.slug = (⟨S⟩ : Slug)) = none) :
    get_stats s ⟨S⟩ = .error .slugNotFound := by
  simp [get_stats, hf]

theorem countRedirect_append (evs evs' : List Event) (k : String) :
    countRedirect (evs ++ evs') k = countRedirect evs k + countRedirect evs' k := by
  simp [countRedirect, List.filter_append]

theorem stepOp_redirect_count (c : ExternalCaps) (s : UrlShortenerService) (op : Op)
    (s' : UrlShortenerService) (r : OpResult) (evs1 : List Event)
    (h : stepOp c s op = some (s', r, evs1)) (S : String) :
    countRedirect evs1 S = if isRedirectedOf S r then 1 else 0 := by
  cases op with
  | create url oslug =>
      simp only [stepOp] at h
      cases hc : handle_create_short_link c s ⟨url⟩ (oslug.map fun t => ⟨t⟩) with
      | none =>
          rw [hc] at h
          exact Option.noConfusion h
      | some pr =>
          obtain ⟨s1, res⟩ := pr
          cases res with
          | ok link =>
              simp only [hc, Option.some.injEq, Prod.mk.injEq] at h
              obtain ⟨-, hr, hevs⟩ := h
              rw [← hr, ← hevs]
              simp [countRedirect, isRedirectedOf]
          | error e =>
              simp only [hc, Option.some.injEq, Prod.mk.injEq] at h
              obtain ⟨-, hr, hevs⟩ := h
              rw [← hr, ← hevs]
              simp [countRedirect, isRedirectedOf]
  | redirect slug =>
      simp only [stepOp] at h
      cases hf : s.url_events.find? (fun e => e.slug = (⟨slug⟩ : Slug)) with
      | some url_event =>
          rw [redirect_found s ⟨slug⟩ url_event hf] at h
          simp only [Option.some.injEq, Prod.mk.injEq] at h
          obtain ⟨-, hr, hevs⟩ := h
          rw [← hr, ← hevs]
          by_cases hS : slug = S
          · subst hS
            simp [countRedirect, isRedirectedOf]
          · have : Event.redirectOccurred slug ≠ Event.redirectOccurred S := by
              intro hcon
              injection hcon with h'
              exact hS h'
            simp [countRedirect, isRedirectedOf, this, hS]
      | none =>
          rw [redirect_not_found s ⟨slug⟩ hf] at h
          simp only [Option.some.injEq, Prod.mk.injEq] at h
          obtain ⟨-, hr, hevs⟩ := h
          rw [← hr, ← hevs]
          simp [countRedirect, isRedirectedOf]
  | getStats slug =>
      simp only [stepOp] at h
      cases hg : get_stats s ⟨slug⟩ with
      | ok st =>
          simp only [hg, Option.some.injEq, Prod.mk.injEq] at h
          obtain ⟨-, hr, hevs⟩ := h
          rw [← hr, ← hevs]
          simp [countRedirect, isRedirectedOf]
      | error e =>
          simp only [hg, Option.some.injEq, Prod.mk.injEq] at h
          obtain ⟨-, hr, hevs⟩ := h
          rw [← hr, ← hevs]
          simp [countRedirect, isRedirectedOf]

theorem runOps_redirect_count (c : ExternalCaps) (ops : List Op) :
    ∀ s0 s rs evs, runOps c s0 ops = some (s, rs, evs) → ∀ S,
      countRedirect evs S = (rs.filter (fun r => isRedirectedOf S r)).length := by
  induction ops with
  | nil =>
      intro s0 s rs evs h S
      simp only [runOps, Option.some.injEq, Prod.mk.injEq] at h
      obtain ⟨-, h2, h3⟩ := h
      rw [← h2, ← h3]
      rfl
  | cons op ops ih =>
      intro s0 s rs evs h S
      simp only [runOps] at h
      cases hs : stepOp c s0 op with
      | none =>
          simp only [hs] at h
          exact Option.noConfusion h
      | some pr =>
          obtain ⟨s1, r, evs1⟩ := pr
          cases hr : runOps c s1 ops with
          | none =>
              simp only [hs, hr] at h
              exact Option.noConfusion h
          | some pr2 =>
              obtain ⟨s2, rs2, evs2⟩ := pr2
              simp only [hs, hr, Option.some.injEq, Prod.mk.injEq] at h
              obtain ⟨-, h2, h3⟩ := h
              rw [← h2, ← h3, countRedirect_append, List.filter_cons]
              rw [stepOp_redirect_count c s0 op s1 r evs1 hs S,
                ih s1 s2 rs2 evs2 hr S]
              by_cases hb : isRedirectedOf S r = true
              · simp [hb, Nat.add_comm]
              · have hb' : isRedirectedOf S r = false := by simpa using hb
                simp [hb']

/-- C5: for every service state and any slug argument,
`handle_create_short_link` with a URL the parser rejects (e.g. "not a url")
always fails with `InvalidUrl` and leaves the service state unchanged — the
step appends no event. -/
theorem create_invalid_url_spec (c : ExternalCaps) (s : UrlShortenerService)
    (U : String) (oslug : Option String) (h : c.url_parse_ok U = false) :
    handle_create_short_link c s ⟨U⟩ (oslug.map (fun t => ⟨t⟩))
        = some (s, .error .invalidUrl)
      ∧ stepOp c s (.create U oslug) = some (s, .failed .invalidUrl, []) := by
  have he := create_invalid c s ⟨U⟩ (oslug.map fun t => ⟨t⟩) h
  exact ⟨he, by simp [stepOp, he]⟩

/-- Witness for C5 at a concrete input: "not a url" is rejected by the
parser and the create command fails with `InvalidUrl`, state unchanged. -/
theorem create_invalid_url_spec_witness :
    handle_create_short_link demoCaps UrlShortenerService.new ⟨"not a url"⟩ none
        = some (UrlShortenerService.new, .error .invalidUrl)
      ∧ stepOp demoCaps UrlShortenerService.new (.create "not a url" none)
        = some (UrlShortenerService.new, .failed .invalidUrl, []) :=
  create_invalid_url_spec demoCaps UrlShortenerService.new "not a url" none
    (by decide)

/-- Counterexample to C1 as stated.  The state holding one link
(slug "a" → "http://e.com/a") is reachable; the slug "b" is fresh and the URL
parses, yet `handle_create_short_link` fails with `SlugAlreadyInUse` (the code
rejects a duplicate URL first, lines 176-179) instead of succeeding; and a
subsequent call with the taken slug "a" and an ill-formed URL fails with
`InvalidUrl`, not `SlugAlreadyInUse`. -/
theorem create_custom_slug_cex :
    runOps demoCaps UrlShortenerService.new [.create "http://e.com/a" (some "a")]
        = some (⟨[⟨⟨"a"⟩, ⟨"http://e.com/a"⟩⟩], []⟩,
                [.created ⟨⟨"a"⟩, ⟨"http://e.com/a"⟩⟩],
                [.linkCreated "a" "http://e.com/a"])
      ∧ demoCaps.url_parse_ok "http://e.com/a" = true
      ∧ ((⟨[⟨⟨"a"⟩, ⟨"http://e.com/a"⟩⟩], []⟩ :
            UrlShortenerService).url_events.map (fun l => l.slug.val)).contains "b"
          = false
      ∧ handle_create_short_link demoCaps ⟨[⟨⟨"a"⟩, ⟨"http://e.com/a"⟩⟩], []⟩
          ⟨"http://e.com/a"⟩ (some ⟨"b"⟩)
          = some (⟨[⟨⟨"a"⟩, ⟨"http://e.com/a"⟩⟩], []⟩, .error .slugAlreadyInUse)
      ∧ demoCaps.url_parse_ok "not a url" = false
      ∧ handle_create_short_link demoCaps ⟨[⟨⟨"a"⟩, ⟨"http://e.com/a"⟩⟩], []⟩
          ⟨"not a url"⟩ (some ⟨"a"⟩)
          = some (⟨[⟨⟨"a"⟩, ⟨"http://e.com/a"⟩⟩], []⟩, .error .invalidUrl) := by
  decide

/-- C1 (amended): if the URL parses, the URL is fresh (no prior creation event
uses it) and the slug is fresh, the call succeeds and returns
`ShortLink{slug, url}`; a subsequent call with that same slug and any
well-formed URL fails with `SlugAlreadyInUse`, leaving the state unchanged. -/
theorem create_custom_slug_amended (c : ExternalCaps) (s : UrlShortenerService)
    (U S : String) (hurl : c.url_parse_ok U = true)
    (hufresh : ∀ l ∈ s.url_events, l.url.val ≠ U)
    (hsfresh : ∀ l ∈ s.url_events, l.slug.val ≠ S) :
    handle_create_short_link c s ⟨U⟩ (some ⟨S⟩)
        = some ({ s with url_events := s.url_events ++ [⟨⟨S⟩, ⟨U⟩⟩] },
                .ok ⟨⟨S⟩, ⟨U⟩⟩)
      ∧ ∀ U2 : String, c.url_parse_ok U2 = true →
          handle_create_short_link c
              { s with url_events := s.url_events ++ [⟨⟨S⟩, ⟨U⟩⟩] }
              ⟨U2⟩ (some ⟨S⟩)
            = some ({ s with url_events := s.url_events ++ [⟨⟨S⟩, ⟨U⟩⟩] },
                    .error .slugAlreadyInUse) := by
  have hany : s.url_events.any (fun e => e.url = (⟨U⟩ : Url)) = false := by
    rw [List.any_eq_false]
    intro l hl
    simp only [decide_eq_true_eq]
    intro hcon
    exact hufresh l hl (by rw [hcon])
  have hnex : ¬ ∃ l ∈ s.url_events, l.slug.val = (⟨S⟩ : Slug).val := by
    rintro ⟨l, hl, hval⟩
    exact hsfresh l hl hval
  refine ⟨create_some_ok c s ⟨U⟩ ⟨S⟩ hurl hany hnex, ?_⟩
  intro U2 hurl2
  by_cases hany2 :
      ({ s with url_events := s.url_events ++ [⟨⟨S⟩, ⟨U⟩⟩] } :
        UrlShortenerService).url_events.any (fun e => e.url = (⟨U2⟩ : Url)) = true
  · exact create_dup_url c _ ⟨U2⟩ (some ⟨S⟩) hurl2 hany2
  · have hany2' :
        ({ s with url_events := s.url_events ++ [⟨⟨S⟩, ⟨U⟩⟩] } :
          UrlShortenerService).url_events.any (fun e => e.url = (⟨U2⟩ : Url))
          = false := by
      simpa using hany2
    refine create_dup_slug c _ ⟨U2⟩ ⟨S⟩ hurl2 hany2' ?_
    exact ⟨⟨⟨S⟩, ⟨U⟩⟩, by simp, rfl⟩

/-- Witness for C1 (amended) at concrete inputs: creating
("http://e.com/a", slug "a") on the fresh service succeeds, and re-using slug
"a" with another well-formed URL then fails with `SlugAlreadyInUse`. -/
theorem create_custom_slug_amended_witness :
    handle_create_short_link demoCaps UrlShortenerService.new
        ⟨"http://e.com/a"⟩ (some ⟨"a"⟩)
        = some ({ UrlShortenerService.new with
                    url_events :=
                      UrlShortenerService.new.url_events
                        ++ [⟨⟨"a"⟩, ⟨"http://e.com/a"⟩⟩] },
                .ok ⟨⟨"a"⟩, ⟨"http://e.com/a"⟩⟩)
      ∧ handle_create_short_link demoCaps
          { UrlShortenerService.new with
              url_events :=
                UrlShortenerService.new.url_events
                  ++ [⟨⟨"a"⟩, ⟨"http://e.com/a"⟩⟩] }
          ⟨"http://e.com/b"⟩ (some ⟨"a"⟩)
          = some ({ UrlShortenerService.new with
                      url_events :=
                        UrlShortenerService.new.url_events
                          ++ [⟨⟨"a"⟩, ⟨"http://e.com/a"⟩⟩] },
                  .error .slugAlreadyInUse) := by
  have h := create_custom_slug_amended demoCaps UrlShortenerService.new
    "http://e.com/a" "a" (by decide)
    (by intro l hl; cases hl) (by intro l hl; cases hl)
  exact ⟨h.1, h.2 "http://e.com/b" (by decide)⟩

/-- Counterexample to C2 as stated.  First: creating the same well-formed URL
twice with no slug fails on the second call with `SlugAlreadyInUse` (the code
keys uniqueness on the URL, lines 176-179) instead of succeeding.  Second:
even with a fresh URL the call need not succeed — when the deterministically
generated slug is already taken the generation loop never terminates (modelled
by `none`). -/
theorem create_auto_slug_cex :
    (runOps demoCaps UrlShortenerService.new
        [.create "http://e.com/a" none, .create "http://e.com/a" none]
      = some (⟨[⟨⟨"hxxxxxxxxxxxxxx"⟩, ⟨"http://e.com/a"⟩⟩], []⟩,
              [.created ⟨⟨"hxxxxxxxxxxxxxx"⟩, ⟨"http://e.com/a"⟩⟩,
               .failed .slugAlreadyInUse],
              [.linkCreated "hxxxxxxxxxxxxxx" "http://e.com/a"])
      ∧ demoCaps.url_parse_ok "http://e.com/a" = true)
    ∧ runOps demoCaps UrlShortenerService.new
        [.create "http://e.com/b" (some "hxxxxxxxxxxxxxx"),
         .create "http://e.com/a" none] = none := by
  decide

/-- C2 (amended): from any reachable state, if the URL parses, the URL is
fresh, and the hash-generated slug for that URL is fresh, then
`handle_create_short_link(url, None)` succeeds and the returned slug differs
from the slug of every creation event in the state — in particular from every
slug returned by an earlier successful create of the run. -/
theorem create_auto_slug_amended (c : ExternalCaps) (ops : List Op)
    (s : UrlShortenerService) (rs : List OpResult) (evs : List Event) (U : String)
    (hrun : runOps c UrlShortenerService.new ops = some (s, rs, evs))
    (hurl : c.url_parse_ok U = true)
    (hufresh : ∀ l ∈ s.url_events, l.url.val ≠ U)
    (hgfresh : ∀ l ∈ s.url_events, l.slug.val ≠ c.generate_slug_from_url U) :
    ∃ link,
      handle_create_short_link c s ⟨U⟩ none
          = some ({ s with url_events := s.url_events ++ [link] }, .ok link)
        ∧ link.slug.val = c.generate_slug_from_url U
        ∧ (∀ l ∈ s.url_events, l.slug ≠ link.slug)
        ∧ (∀ link', OpResult.created link' ∈ rs → link'.slug ≠ link.slug) := by
  have hany : s.url_events.any (fun e => e.url = (⟨U⟩ : Url)) = false := by
    rw [List.any_eq_false]
    intro l hl
    simp only [decide_eq_true_eq]
    intro hcon
    exact hufresh l hl (by rw [hcon])
  have hnex : ¬ ∃ l ∈ s.url_events, l.slug.val = c.generate_slug_from_url U := by
    rintro ⟨l, hl, hval⟩
    exact hgfresh l hl hval
  refine ⟨⟨⟨c.generate_slug_from_url U⟩, ⟨U⟩⟩,
    create_none_ok c s ⟨U⟩ hurl hany hnex, rfl, ?_, ?_⟩
  · intro l hl hcon
    exact hgfresh l hl (by rw [hcon])
  · intro link' hmem hcon
    have hl' : link' ∈ s.url_events :=
      created_mem_url_events c ops UrlShortenerService.new s rs evs hrun link' hmem
    exact hgfresh link' hl' (by rw [hcon])

/-- Witness for C2 (amended) at concrete inputs: after one successful create,
a second create with a fresh URL (of a different length, so its generated slug
is fresh too) succeeds with a new, distinct slug. -/
theorem create_auto_slug_amended_witness :
    ∃ link,
      handle_create_short_link demoCaps
          ⟨[⟨⟨"hxxxxxxxxxxxxxx"⟩, ⟨"http://e.com/a"⟩⟩], []⟩ ⟨"http://e.com/ab"⟩ none
          = some ({ (⟨[⟨⟨"hxxxxxxxxxxxxxx"⟩, ⟨"http://e.com/a"⟩⟩], []⟩ :
                      UrlShortenerService) with
                      url_events :=
                        (⟨[⟨⟨"hxxxxxxxxxxxxxx"⟩, ⟨"http://e.com/a"⟩⟩], []⟩ :
                          UrlShortenerService).url_events ++ [link] },
                  .ok link)
        ∧ link.slug.val = demoCaps.generate_slug_from_url "http://e.com/ab"
        ∧ (∀ l ∈ (⟨[⟨⟨"hxxxxxxxxxxxxxx"⟩, ⟨"http://e.com/a"⟩⟩], []⟩ :
              UrlShortenerService).url_events, l.slug ≠ link.slug) :=
  match create_auto_slug_amended demoCaps [.create "http://e.com/a" none]
      ⟨[⟨⟨"hxxxxxxxxxxxxxx"⟩, ⟨"http://e.com/a"⟩⟩], []⟩
      [.created ⟨⟨"hxxxxxxxxxxxxxx"⟩, ⟨"http://e.com/a"⟩⟩]
      [.linkCreated "hxxxxxxxxxxxxxx" "http://e.com/a"]
      "http://e.com/ab" (by decide) (by decide)
      (by decide) (by decide) with
  | ⟨link, h1, h2, h3, _⟩ => ⟨link, h1, h2, h3⟩

/-- C3: in any run from the fresh service, for every slug with a creation
event, `get_stats` succeeds and its `redirects` field equals the number of
`RedirectOccurred` events for that slug in the flat log — which is exactly the
number of successful redirect calls of that slug in the run (all of which
happen after creation, since a redirect of an unknown slug fails). -/
theorem get_stats_counts_redirects (c : ExternalCaps) (ops : List Op)
    (s : UrlShortenerService) (rs : List OpResult) (evs : List Event) (S : String)
    (hrun : runOps c UrlShortenerService.new ops = some (s, rs, evs))
    (hS : ∃ l ∈ s.url_events, l.slug.val = S) :
    ∃ st, get_stats s ⟨S⟩ = .ok st
      ∧ st.redirects = countRedirect evs S
      ∧ countRedirect evs S = (rs.filter (fun r => isRedirectedOf S r)).length := by
  obtain ⟨l', hf, hl'⟩ := find?_slug_of_mem s S hS
  have hb : bucketEntries s.redirect_events_by_slug S
      = List.replicate (countRedirect evs S) ⟨S⟩ := by
    have hrep := runOps_replay c ops UrlShortenerService.new s rs evs hrun
    rw [hrep, foldl_applyEvent_buckets]
    simp [bucketEntries, bucketLookup, UrlShortenerService.new]
  refine ⟨_, get_stats_found s S l' hf, ?_, ?_⟩
  · simp only [hb, List.filter_replicate]
    simp
  · exact runOps_redirect_count c ops UrlShortenerService.new s rs evs hrun S

/-- Witness for C3 at a concrete run: after creating slug "a" and redirecting
it twice (with a failed redirect of an unknown slug in between), the stats
report exactly 2 redirects. -/
theorem get_stats_counts_redirects_witness :
    ∃ st,
      get_stats (⟨[⟨⟨"a"⟩, ⟨"http://e.com/a"⟩⟩], [("a", [⟨"a"⟩, ⟨"a"⟩])]⟩ :
          UrlShortenerService) ⟨"a"⟩ = .ok st
        ∧ st.redirects
            = countRedirect
                [.linkCreated "a" "http://e.com/a", .redirectOccurred "a",
                 .redirectOccurred "a"] "a"
        ∧ countRedirect
              [.linkCreated "a" "http://e.com/a", .redirectOccurred "a",
               .redirectOccurred "a"] "a"
            = ([OpResult.created ⟨⟨"a"⟩, ⟨"http://e.com/a"⟩⟩,
                .redirected ⟨⟨"a"⟩, ⟨"http://e.com/a"⟩⟩,
                .failed .slugNotFound,
                .redirected ⟨⟨"a"⟩, ⟨"http://e.com/a"⟩⟩].filter
                  (fun r => isRedirectedOf "a" r)).length :=
  get_stats_counts_redirects demoCaps
    [.create "http://e.com/a" (some "a"), .redirect "a", .redirect "zzz",
     .redirect "a"]
    ⟨[⟨⟨"a"⟩, ⟨"http://e.com/a"⟩⟩], [("a", [⟨"a"⟩, ⟨"a"⟩])]⟩
    [.created ⟨⟨"a"⟩, ⟨"http://e.com/a"⟩⟩,
     .redirected ⟨⟨"a"⟩, ⟨"http://e.com/a"⟩⟩,
     .failed .slugNotFound,
     .redirected ⟨⟨"a"⟩, ⟨"http://e.com/a"⟩⟩]
    [.linkCreated "a" "http://e.com/a", .redirectOccurred "a",
     .redirectOccurred "a"]
    "a" (by decide) (by decide)

/-- C4: `handle_redirect` fails with `SlugNotFound` iff no creation event
exists for the slug; on failure the whole state is unchanged and no event is
appended; on success exactly one `RedirectOccurred` event for the slug is
appended (its bucket grows by one entry, all other buckets are untouched, the
creation log is untouched) and the returned link carries the slug and the URL
bound to it by the creation log. -/
theorem handle_redirect_spec (c : ExternalCaps) (s : UrlShortenerService)
    (S : String) :
    ((handle_redirect s ⟨S⟩).2 = .error .slugNotFound
        ↔ ¬ ∃ l ∈ s.url_events, l.slug.val = S)
      ∧ ((handle_redirect s ⟨S⟩).2 = .error .slugNotFound →
           stepOp c s (.redirect S) = some (s, .failed .slugNotFound, []))
      ∧ (∀ link, (handle_redirect s ⟨S⟩).2 = .ok link →
           link.slug.val = S
           ∧ (∃ l, s.url_events.find? (fun e => e.slug = (⟨S⟩ : Slug)) = some l
                ∧ link.url = l.url)
           ∧ stepOp c s (.redirect S)
               = some ((handle_redirect s ⟨S⟩).1, .redirected link,
                       [.redirectOccurred S])
           ∧ (handle_redirect s ⟨S⟩).1.url_events = s.url_events
           ∧ bucketEntries (handle_redirect s ⟨S⟩).1.redirect_events_by_slug S
               = bucketEntries s.redirect_events_by_slug S ++ [⟨S⟩]
           ∧ ∀ k, k ≠ S →
               bucketEntries (handle_redirect s ⟨S⟩).1.redirect_events_by_slug k
                 = bucketEntries s.redirect_events_by_slug k) := by
  cases hf : s.url_events.find? (fun e => e.slug = (⟨S⟩ : Slug)) with
  | some url_event =>
      have he := redirect_found s ⟨S⟩ url_event hf
      have hmem : ∃ l ∈ s.url_events, l.slug.val = S := by
        refine ⟨url_event, List.mem_of_find?_eq_some hf, ?_⟩
        have := List.find?_some hf
        simp only [decide_eq_true_eq] at this
        rw [this]
      refine ⟨?_, ?_, ?_⟩
      · rw [he]
        constructor
        · intro hcon
          cases hcon
        · intro hcon
          exact absurd hmem hcon
      · rw [he]
        intro hcon
        cases hcon
      · intro link hok
        rw [he] at hok
        simp only [Except.ok.injEq] at hok
        rw [he]
        refine ⟨by rw [← hok], ⟨url_event, rfl, by rw [← hok]⟩, ?_, rfl, ?_, ?_⟩
        · simp [stepOp, he, ← hok]
        · have := bucketEntries_push s.redirect_events_by_slug ⟨S⟩ S
          simpa using this
        · intro k hk
          have := bucketEntries_push s.redirect_events_by_slug ⟨S⟩ k
          simpa [hk] using this
  | none =>
      have he := redirect_not_found s ⟨S⟩ hf
      refine ⟨?_, ?_, ?_⟩
      · rw [he]
        simp only [true_iff]
        rintro ⟨l, hl, hval⟩
        have := List.find?_eq_none.mp hf l hl
        simp only [decide_eq_true_eq] at this
        exact this (slugVal_inj hval)
      · intro h
        simp [stepOp, he]
      · intro link hok
        rw [he] at hok
        cases hok

/-- Witness for C4 at concrete inputs: redirecting the existing slug "a"
appends exactly one redirect event and returns its link. -/
theorem handle_redirect_spec_witness :
    stepOp demoCaps ⟨[⟨⟨"a"⟩, ⟨"http://e.com/a"⟩⟩], []⟩ (.redirect "a")
      = some ((handle_redirect ⟨[⟨⟨"a"⟩, ⟨"http://e.com/a"⟩⟩], []⟩ ⟨"a"⟩).1,
              .redirected ⟨⟨"a"⟩, ⟨"http://e.com/a"⟩⟩, [.redirectOccurred "a"]) :=
  ((handle_redirect_spec demoCaps ⟨[⟨⟨"a"⟩, ⟨"http://e.com/a"⟩⟩], []⟩ "a").2.2
    ⟨⟨"a"⟩, ⟨"http://e.com/a"⟩⟩ (by decide)).2.2.1

/-- C6: in every reachable state no two creation events share a slug, and
every operation that completes preserves this invariant. -/
theorem slug_uniqueness_invariant (c : ExternalCaps) (s : UrlShortenerService)
    (h : Reachable c s) :
    (s.url_events.map (fun l => l.slug.val)).Nodup
      ∧ ∀ op s' r evs, stepOp c s op = some (s', r, evs) →
          (s'.url_events.map (fun l => l.slug.val)).Nodup := by
  have hinv := reachable_inv c s h
  refine ⟨hinv.1, ?_⟩
  intro op s' r evs hstep
  exact (stepOp_preserves_inv c s op s' r evs hstep hinv).1

/-- Witness for C6 at a concrete reachable state with two links. -/
theorem slug_uniqueness_invariant_witness :
    ((⟨[⟨⟨"a"⟩, ⟨"http://e.com/a"⟩⟩, ⟨⟨"b"⟩, ⟨"http://e.com/b"⟩⟩], []⟩ :
        UrlShortenerService).url_events.map (fun l => l.slug.val)).Nodup :=
  (slug_uniqueness_invariant demoCaps
    ⟨[⟨⟨"a"⟩, ⟨"http://e.com/a"⟩⟩, ⟨⟨"b"⟩, ⟨"http://e.com/b"⟩⟩], []⟩
    ⟨[.create "http://e.com/a" (some "a"), .create "http://e.com/b" (some "b")],
     [.created ⟨⟨"a"⟩, ⟨"http://e.com/a"⟩⟩, .created ⟨⟨"b"⟩, ⟨"http://e.com/b"⟩⟩],
     [.linkCreated "a" "http://e.com/a", .linkCreated "b" "http://e.com/b"],
     by decide⟩).1

/-- C7: the claim that the slug-generation loop always terminates is wrong.
`generate_slug_from_url` is a deterministic function of the URL, and the loop
(lines 203-208) recomputes the same slug forever, so for ANY parser and slug
generator there is a two-command run that makes the create call diverge: first
register the slug the generator will produce for `u2` as a custom slug of a
different URL `u1`, then create `u2` with no slug.  The run evaluates to
`none`, the model's marker for non-termination of the loop. -/
theorem slug_loop_divergence (c : ExternalCaps) (u1 u2 : String)
    (h1 : c.url_parse_ok u1 = true) (h2 : c.url_parse_ok u2 = true)
    (hne : u1 ≠ u2) :
    runOps c UrlShortenerService.new
      [.create u1 (some (c.generate_slug_from_url u2)), .create u2 none]
      = none := by
  have e1 := create_some_ok c UrlShortenerService.new ⟨u1⟩
    ⟨c.generate_slug_from_url u2⟩ h1 (by rfl) (by rintro ⟨l, hl, -⟩; cases hl)
  have e2 := create_none_diverges c
    { UrlShortenerService.new with
        url_events := UrlShortenerService.new.url_events
          ++ [⟨⟨c.generate_slug_from_url u2⟩, ⟨u1⟩⟩] }
    ⟨u2⟩ h2
    (by
      rw [List.any_eq_false]
      intro l hl
      simp only [UrlShortenerService.new, List.nil_append, List.mem_singleton] at hl
      simp only [decide_eq_true_eq, hl]
      intro hcon
      injection hcon with hval
      exact hne hval)
    (by
      refine ⟨⟨⟨c.generate_slug_from_url u2⟩, ⟨u1⟩⟩, ?_, rfl⟩
      simp [UrlShortenerService.new])
  simp [runOps, stepOp, e1, e2]

/-- Witness for C7: a concrete two-command run that drives the
slug-generation loop into non-termination. -/
theorem slug_loop_divergence_witness :
    runOps demoCaps UrlShortenerService.new
      [.create "http://e.com/a"
         (some (demoCaps.generate_slug_from_url "http://e.com/b")),
       .create "http://e.com/b" none]
      = none :=
  slug_loop_divergence demoCaps "http://e.com/a" "http://e.com/b"
    (by decide) (by decide) (by decide)

/-- C8: replaying the flat ordered event log of any completed run from the
empty service through the fold logic reproduces exactly the incrementally
maintained state (both the creation log and the per-slug redirect index). -/
theorem replay_roundtrip (c : ExternalCaps) (ops : List Op)
    (s : UrlShortenerService) (rs : List OpResult) (evs : List Event)
    (hrun : runOps c UrlShortenerService.new ops = some (s, rs, evs)) :
    s = evs.foldl applyEvent UrlShortenerService.new :=
  runOps_replay c ops UrlShortenerService.new s rs evs hrun

/-- Witness for C8 at a concrete run mixing creates, redirects and a query. -/
theorem replay_roundtrip_witness :
    (⟨[⟨⟨"a"⟩, ⟨"http://e.com/a"⟩⟩], [("a", [⟨"a"⟩, ⟨"a"⟩])]⟩ :
        UrlShortenerService)
      = List.foldl applyEvent UrlShortenerService.new
          [.linkCreated "a" "http://e.com/a", .redirectOccurred "a",
           .redirectOccurred "a"] :=
  replay_roundtrip demoCaps
    [.create "http://e.com/a" (some "a"), .redirect "a", .getStats "a",
     .redirect "a"]
    ⟨[⟨⟨"a"⟩, ⟨"http://e.com/a"⟩⟩], [("a", [⟨"a"⟩, ⟨"a"⟩])]⟩
    [.created ⟨⟨"a"⟩, ⟨"http://e.com/a"⟩⟩,
     .redirected ⟨⟨"a"⟩, ⟨"http://e.com/a"⟩⟩,
     .statsResult ⟨⟨⟨"a"⟩, ⟨"http://e.com/a"⟩⟩, 1⟩,
     .redirected ⟨⟨"a"⟩, ⟨"http://e.com/a"⟩⟩]
    [.linkCreated "a" "http://e.com/a", .redirectOccurred "a",
     .redirectOccurred "a"]
    (by decide)

/-- C9: `get_stats` is side-effect-free and read-idempotent: a stats step
leaves the state unchanged and appends no event, and two consecutive stats
queries with no intervening command return identical results. -/
theorem get_stats_idempotent (c : ExternalCaps) (s : UrlShortenerService)
    (S : String) :
    ∃ r, stepOp c s (.getStats S) = some (s, r, [])
      ∧ runOps c s [.getStats S, .getStats S] = some (s, [r, r], []) := by
  cases hg : get_stats s ⟨S⟩ with
  | ok st => exact ⟨.statsResult st, by simp [stepOp, hg], by simp [runOps, stepOp, hg]⟩
  | error e => exact ⟨.failed e, by simp [stepOp, hg], by simp [runOps, stepOp, hg]⟩

/-- C10 (implicit URL-uniqueness policy): in every reachable state no two
creation events share a URL, and a create whose URL equals the URL of any
existing creation event fails with `SlugAlreadyInUse` — whatever the slug
argument — leaving the state unchanged. -/
theorem url_uniqueness_invariant (c : ExternalCaps) (s : UrlShortenerService)
    (h : Reachable c s) :
    (s.url_events.map (fun l => l.url.val)).Nodup
      ∧ ∀ U ∈ s.url_events.map (fun l => l.url.val), ∀ oslug,
          handle_create_short_link c s ⟨U⟩ oslug
            = some (s, .error .slugAlreadyInUse) := by
  have hinv := reachable_inv c s h
  refine ⟨hinv.2.1, ?_⟩
  intro U hmem oslug
  obtain ⟨l, hl, hval⟩ := List.mem_map.mp hmem
  have hparse : c.url_parse_ok U = true := by
    rw [← hval]
    exact hinv.2.2 l hl
  have hany : s.url_events.any (fun e => e.url = (⟨U⟩ : Url)) = true := by
    rw [List.any_eq_true]
    exact ⟨l, hl, by simp [urlVal_inj (a := l.url) (b := ⟨U⟩) hval]⟩
  exact create_dup_url c s ⟨U⟩ oslug hparse hany

/-- Witness for C10 at a concrete reachable state: re-submitting a registered
URL fails with `SlugAlreadyInUse` even with a fresh custom slug. -/
theorem url_uniqueness_invariant_witness :
    handle_create_short_link demoCaps ⟨[⟨⟨"a"⟩, ⟨"http://e.com/a"⟩⟩], []⟩
        ⟨"http://e.com/a"⟩ (some ⟨"fresh"⟩)
      = some (⟨[⟨⟨"a"⟩, ⟨"http://e.com/a"⟩⟩], []⟩, .error .slugAlreadyInUse) :=
  (url_uniqueness_invariant demoCaps ⟨[⟨⟨"a"⟩, ⟨"http://e.com/a"⟩⟩], []⟩
    ⟨[.create "http://e.com/a" (some "a")],
     [.created ⟨⟨"a"⟩, ⟨"http://e.com/a"⟩⟩],
     [.linkCreated "a" "http://e.com/a"],
     by decide⟩).2 "http://e.com/a" (by decide) (some ⟨"fresh"⟩)
